import Mathlib

/-!
Verification of the "Tick & Tie" audit tool (field extraction and
reconciliation pipeline). The definitions below are a shallow embedding of
the application source: `App.tsx` (field registry, extraction orchestration,
reconciliation orchestration), `utils.ts` (sanitizeKey, getNextColor,
exportToZip filename de-duplication and sheet shaping, parseMarkdownTable),
`geminiService.ts` (processDocument / reconcileData contracts) and
`types.ts` (data model).  JavaScript strings are modelled by `String`,
JS `string | number | null` scalars by `JsValue` (with JS truthiness),
records by association lists, and the remote Gemini service by an oracle
parameter giving the outcome of each remote call.
-/

/-- JS scalar value (`string | number | null`) as stored in
`ExtractedValue.value` and reference rows. -/
inductive JsValue where
  | str (s : String)
  | num (n : Int)
  | null
deriving DecidableEq

/-- JS truthiness for a `JsValue`: the empty string, the number `0` and
`null` are falsy; everything else is truthy. -/
def jsTruthy : JsValue → Bool
  | JsValue.str s => !(s == "")
  | JsValue.num n => !(n == 0)
  | JsValue.null => false

/-- JS `x || d` for an optional scalar (`extracted?.value || d`):
the scalar itself when present and truthy, otherwise the default. -/
def jsOrElse (v : Option JsValue) (d : JsValue) : JsValue :=
  match v with
  | none => d
  | some x => if jsTruthy x then x else d

/-- JS `s || d` for an optional string (`response.text || d`):
the string itself when present and non-empty, otherwise the default. -/
def jsOrString (v : Option String) (d : String) : String :=
  match v with
  | none => d
  | some s => if s == "" then d else s

/-- JS `String.prototype.trim`: strip leading and trailing whitespace
(modelled on the character sequence). -/
def jsTrim (s : String) : String :=
  ⟨((s.data.dropWhile Char.isWhitespace).reverse.dropWhile
      Char.isWhitespace).reverse⟩

/-- JS `String.prototype.startsWith`. -/
def jsStartsWith (s pre : String) : Bool :=
  pre.data.isPrefixOf s.data

/-- JS `String.prototype.endsWith`. -/
def jsEndsWith (s suf : String) : Bool :=
  suf.data.isSuffixOf s.data

/-- Splitting pass for `jsSplit`, accumulating the current (reversed)
segment. -/
def jsSplitAux (sep : Char) : List Char → List Char → List String
  | [], acc => [⟨acc.reverse⟩]
  | c :: cs, acc =>
    if c == sep then ⟨acc.reverse⟩ :: jsSplitAux sep cs []
    else jsSplitAux sep cs (c :: acc)

/-- JS `String.prototype.split` with a one-character separator
(the source only splits on `'\n'` and `'|'`). -/
def jsSplit (s : String) (sep : Char) : List String :=
  jsSplitAux sep s.data []

/-- `types.ts` `ExtractedValue`: the result of extracting one field from one
document.  `box_2d` is an optional integer array (`[ymin,xmin,ymax,xmax]`);
`none` models both an absent and a `null` box. -/
structure ExtractedValue where
  value : JsValue
  box_2d : Option (List Int)
deriving DecidableEq

/-- `types.ts` document status: `'idle' | 'processing' | 'success' | 'error'`. -/
inductive DocStatus where
  | idle
  | processing
  | success
  | error
deriving DecidableEq

/-- `types.ts` `FieldDefinition`. -/
structure FieldDefinition where
  id : String
  name : String
  key : String
  color : String
deriving DecidableEq

/-- `types.ts` `DocumentResult`.  The binary file payload carries no logic
and is omitted; `data` is the JS record keyed by `FieldDefinition.key`,
modelled as an association list. -/
structure DocumentResult where
  id : String
  fileName : String
  fileType : String
  previewUrl : Option String
  status : DocStatus
  errorMsg : Option String
  data : List (String × ExtractedValue)
deriving DecidableEq

/-- `types.ts` `ReconcileResult`. -/
structure ReconcileResult where
  report : String
  code : String
deriving DecidableEq

/-- `types.ts` `COLORS` palette. -/
def COLORS : List String :=
  ["#ef4444", "#3b82f6", "#10b981", "#f59e0b", "#8b5cf6",
   "#ec4899", "#06b6d4", "#84cc16", "#f97316", "#6366f1"]

/-- `utils.ts` `sanitizeKey`: replace every character outside `[a-zA-Z0-9]`
with `_` (the regex replace), then lowercase the result.
`Char.isAlphanum` is exactly the `[a-zA-Z0-9]` character class and
`Char.toLower` matches JS `toLowerCase` on that post-replacement alphabet. -/
def sanitizeKey (name : String) : String :=
  ⟨(name.data.map (fun c => if c.isAlphanum then c else '_')).map Char.toLower⟩

/-- `utils.ts` `getNextColor`: `COLORS[index % COLORS.length]`. -/
def getNextColor (index : Nat) : String :=
  COLORS.getD (index % COLORS.length) ""

/-- `App.tsx` `addField`: no-op when the name trims to empty, otherwise
append a new field whose key is the sanitized name and whose color is
`getNextColor` of the current field count.  The freshly generated uuid is
passed in as `newId`. -/
def addField (newFieldName : String) (newId : String)
    (fields : List FieldDefinition) : List FieldDefinition :=
  if jsTrim newFieldName == "" then fields
  else fields ++ [{ id := newId, name := newFieldName,
                    key := sanitizeKey newFieldName,
                    color := getNextColor fields.length }]

/-- `App.tsx` `removeField`: keep every field whose id differs. -/
def removeField (id : String) (fields : List FieldDefinition) :
    List FieldDefinition :=
  fields.filter (fun f => !(f.id == id))

/-- A sequence of `addField` operations (name, id pairs) applied in order. -/
def addAll (ps : List (String × String)) (fields : List FieldDefinition) :
    List FieldDefinition :=
  ps.foldl (fun fs p => addField p.1 p.2 fs) fields

/-! ### Extraction orchestration (`App.tsx` `runExtraction`)

The remote `processDocument` call is modelled by an oracle giving, for the
`i`-th document of the run, either the extracted field map or a failure. -/

/-- The functional `setDocuments` update used by `runExtraction`: replace
the full record of every document whose id matches. -/
def updateById (docs : List DocumentResult) (i : String)
    (f : DocumentResult → DocumentResult) : List DocumentResult :=
  docs.map (fun d => if d.id == i then f d else d)

/-- `{ ...d, status: 'processing' }`. -/
def markProcessing (d : DocumentResult) : DocumentResult :=
  { d with status := DocStatus.processing }

/-- `{ ...d, status: 'success', data: result }`. -/
def markSuccess (result : List (String × ExtractedValue))
    (d : DocumentResult) : DocumentResult :=
  { d with status := DocStatus.success, data := result }

/-- `{ ...d, status: 'error', errorMsg: 'Extraction failed' }`. -/
def markError (d : DocumentResult) : DocumentResult :=
  { d with status := DocStatus.error, errorMsg := some "Extraction failed" }

/-- One iteration of the `runExtraction` loop, iterating over the cloned
snapshot `docsToProcess` (indexed pairs) while threading the live document
state.  Returns the final state together with the list of snapshot indices
for which a remote `processDocument` call was issued. -/
def runExtractionAux
    (oracle : Nat → Except Unit (List (String × ExtractedValue))) :
    List (Nat × DocumentResult) → List DocumentResult →
      List DocumentResult × List Nat
  | [], state => (state, [])
  | (i, doc) :: rest, state =>
    if doc.status = DocStatus.success then
      runExtractionAux oracle rest state
    else
      let state1 := updateById state doc.id markProcessing
      let state2 :=
        match oracle i with
        | Except.ok result => updateById state1 doc.id (markSuccess result)
        | Except.error _ => updateById state1 doc.id markError
      let out := runExtractionAux oracle rest state2
      (out.1, i :: out.2)

/-- `App.tsx` `runExtraction`: early return on an empty document list,
otherwise run the sequential loop over the snapshot. -/
def runExtraction
    (oracle : Nat → Except Unit (List (String × ExtractedValue)))
    (documents : List DocumentResult) : List DocumentResult × List Nat :=
  if documents.length = 0 then (documents, [])
  else runExtractionAux oracle documents.enum documents

/-- The net pointwise effect of one loop iteration (snapshot entry
`(i, snap)`) on a single document record in the state: skipped entirely
when the snapshot status is `success`, otherwise the processing-then-final
update on records with matching id. -/
def docEffect (oracle : Nat → Except Unit (List (String × ExtractedValue)))
    (i : Nat) (snap : DocumentResult) (d : DocumentResult) : DocumentResult :=
  if snap.status = DocStatus.success then d
  else if d.id == snap.id then
    match oracle i with
    | Except.ok result => markSuccess result (markProcessing d)
    | Except.error _ => markError (markProcessing d)
  else d

/-- The composed pointwise effect of a whole run on one document record. -/
def runEffect (oracle : Nat → Except Unit (List (String × ExtractedValue))) :
    List (Nat × DocumentResult) → DocumentResult → DocumentResult
  | [], d => d
  | (i, snap) :: rest, d => runEffect oracle rest (docEffect oracle i snap d)

/-! ### Reconciliation (`App.tsx` `runReconciliation`,
`geminiService.ts` `reconcileData`) -/

/-- One row of the extracted-data projection sent to the reconciliation
prompt, and one reference row: a JS object as an association list. -/
abbrev ReconRow := List (String × JsValue)

/-- `geminiService.ts` `reconcileData` projection:
`row[f.name] = d.data[f.key]?.value || null` over the successful documents,
with the `fileName` property first. -/
def reconcileProjection (documents : List DocumentResult)
    (fields : List FieldDefinition) : List ReconRow :=
  (documents.filter (fun d => d.status == DocStatus.success)).map (fun d =>
    ("fileName", JsValue.str d.fileName) ::
      fields.map (fun f =>
        (f.name, jsOrElse ((List.lookup f.key d.data).map (·.value))
          JsValue.null)))

/-- One part of the Gemini code-execution response
(`candidates[0].content.parts`): may carry an executable-code fragment. -/
structure GenPart where
  executableCode : Option String
deriving DecidableEq

/-- The Gemini code-execution response: optional narrative text plus
response parts. -/
structure GenResponse where
  text : Option String
  parts : List GenPart
deriving DecidableEq

/-- The block-boundary marker `reconcileData` joins code fragments with. -/
def codeBlockSeparator : String :=
  "\n\n# ---------------------------------------------------------\n# Next Code Block\n# ---------------------------------------------------------\n\n"

/-- `geminiService.ts` `reconcileData`.  `apiKey` tells whether
`process.env.API_KEY` is set; `remote` gives the outcome of the
`generateContent` call as a function of the projected extracted rows.
Returns the thrown-or-returned outcome together with the number of remote
calls issued (the call is reached only past the API-key check). -/
def reconcileData (apiKey : Bool) (remote : List ReconRow → Except Unit GenResponse)
    (documents : List DocumentResult) (fields : List FieldDefinition)
    (referenceData : List ReconRow) (userInstructions : String) :
    Except String ReconcileResult × Nat :=
  if !apiKey then (Except.error "API Key is missing", 0)
  else
    match remote (reconcileProjection documents fields) with
    | Except.error _ => (Except.error "Reconciliation Error", 1)
    | Except.ok resp =>
      (Except.ok
        { report := jsOrString resp.text
            "Analysis completed, but no text explanation was returned."
          code := String.intercalate codeBlockSeparator
            (resp.parts.filterMap (·.executableCode)) }, 1)

/-- Outcome of the `runReconciliation` handler: either an `alert` with a
user-facing message and an early return, or a `ReconcileResult` stored in
state. -/
inductive ReconcileOutcome where
  | refused (msg : String)
  | completed (r : ReconcileResult)
deriving DecidableEq

/-- `App.tsx` `runReconciliation`: precondition checks, then the
`reconcileData` call with its try/catch converting any failure into the
sentinel result.  Also returns the number of remote calls issued. -/
def runReconciliation (apiKey : Bool)
    (remote : List ReconRow → Except Unit GenResponse)
    (documents : List DocumentResult) (fields : List FieldDefinition)
    (referenceData : List ReconRow) (reconcilePrompt : String) :
    ReconcileOutcome × Nat :=
  let successDocs := documents.filter (fun d => d.status == DocStatus.success)
  if successDocs.length = 0 then
    (ReconcileOutcome.refused "Please extract data from documents first (Tick phase).", 0)
  else if referenceData.length = 0 then
    (ReconcileOutcome.refused "Please upload a reference dataset.", 0)
  else
    match reconcileData apiKey remote documents fields referenceData reconcilePrompt with
    | (Except.ok r, n) => (ReconcileOutcome.completed r, n)
    | (Except.error _, n) =>
      (ReconcileOutcome.completed { report := "An error occurred during analysis.", code := "" }, n)

/-! ### Export assembly (`utils.ts` `exportToZip`) -/

/-- JS `name.lastIndexOf(".")` as an optional character index. -/
def lastDotIndex (cs : List Char) : Option Nat :=
  match (cs.reverse).findIdx? (fun c => c == '.') with
  | none => none
  | some k => some (cs.length - 1 - k)

/-- Split a file name into base and extension as `exportToZip` does:
the extension is the substring from the last `.` onward, empty if none. -/
def splitExtension (name : String) : String × String :=
  match lastDotIndex name.data with
  | none => (name, "")
  | some i => (⟨name.data.take i⟩, ⟨name.data.drop i⟩)

/-- The candidate name `` `${base}_${counter}${ext}` `` tried by the
de-duplication loop. -/
def candidateName (base ext : String) (counter : Nat) : String :=
  base ++ "_" ++ Nat.repr counter ++ ext

/-- The `while (usedFilenames.has(uniqueName))` loop of `exportToZip`,
with explicit fuel (the actual loop always terminates; the fuel passed by
`resolveUnique` is proven sufficient below). -/
def dedupLoop (used : List String) (base ext : String) :
    Nat → String → Nat → String
  | 0, cand, _ => cand
  | fuel + 1, cand, counter =>
    if used.contains cand then
      dedupLoop used base ext fuel (candidateName base ext counter) (counter + 1)
    else cand

/-- Resolve one document's unique export file name against the set of
names already used in this export. -/
def resolveUnique (used : List String) (name : String) : String :=
  let p := splitExtension name
  dedupLoop used p.1 p.2 (used.length + 1) name 1

/-- The `documents.forEach` filename pass of `exportToZip`, accumulating
`usedFilenames` (which coincides with the list of resolved names). -/
def resolveNamesAux (acc : List String) : List String → List String
  | [] => acc
  | n :: ns => resolveNamesAux (acc ++ [resolveUnique acc n]) ns

/-- Resolved unique export names for a document list (by file name),
in input order. -/
def resolveNames (names : List String) : List String :=
  resolveNamesAux [] names

/-- `JSON.stringify` of a JS number array, element part: numbers joined by
commas with no whitespace. -/
def jsonItems : List Int → String
  | [] => ""
  | [x] => Int.repr x
  | x :: xs => Int.repr x ++ "," ++ jsonItems xs

/-- `JSON.stringify(box_2d)` for an integer array. -/
def jsonIntArray (l : List Int) : String :=
  "[" ++ jsonItems l ++ "]"

/-- The export sheet value cell: `row[field.name] = extracted?.value || ''`. -/
def exportValueCell (data : List (String × ExtractedValue)) (key : String) :
    JsValue :=
  jsOrElse ((List.lookup key data).map (·.value)) (JsValue.str "")

/-- The export sheet coordinate cell:
`extracted?.box_2d ? JSON.stringify(extracted.box_2d) : ''`. -/
def exportCoordCell (data : List (String × ExtractedValue)) (key : String) :
    String :=
  match List.lookup key data with
  | none => ""
  | some ev =>
    match ev.box_2d with
    | none => ""
    | some box => jsonIntArray box

/-- The results-table cell of `App.tsx`: `val?.value || '-'`. -/
def displayCell (data : List (String × ExtractedValue)) (key : String) :
    JsValue :=
  jsOrElse ((List.lookup key data).map (·.value)) (JsValue.str "-")

/-! ### Markdown table parsing (`utils.ts` `parseMarkdownTable`) -/

/-- JS `line.replace(/\|/g, '')`: drop every pipe character. -/
def stripPipes (s : String) : String :=
  ⟨s.data.filter (fun c => !(c == '|'))⟩

/-- Separator-row test:
`line.replace(/\|/g, '').trim().match(/^-+$/)` — after removing pipes and
trimming, the line is a non-empty run of dashes. -/
def isSepLine (line : String) : Bool :=
  let t := jsTrim (stripPipes line)
  !(t == "") && t.data.all (fun c => c == '-')

/-- Cell extraction: `line.split('|').slice(1, -1).map(c => c.trim())`. -/
def rowCells (line : String) : List String :=
  (((jsSplit line '|').drop 1).dropLast).map jsTrim

/-- The `for (let line of lines)` loop of `parseMarkdownTable`, over the
remaining lines with the accumulated rows and the `tableStarted` flag;
hitting a blank line after the table has started returns early. -/
def pmtLoop : List String → List (List String) → Bool → List (List String)
  | [], data, _ => data
  | l :: rest, data, tableStarted =>
    let line := jsTrim l
    if jsStartsWith line "|" && jsEndsWith line "|" then
      if isSepLine line then pmtLoop rest data tableStarted
      else pmtLoop rest (data ++ [rowCells line]) true
    else if tableStarted && (line == "") then data
    else pmtLoop rest data tableStarted

/-- `utils.ts` `parseMarkdownTable`. -/
def parseMarkdownTable (markdown : String) : Option (List (List String)) :=
  let data := pmtLoop (jsSplit markdown '\n') [] false
  if data.length > 0 then some data else none

/-- The rows `parseMarkdownTable` extracts from a run of pipe lines:
each line trimmed, separator rows dropped, the rest split into cells. -/
def expectedRows (tlines : List String) : List (List String) :=
  ((tlines.map jsTrim).filter (fun t => !isSepLine t)).map rowCells

/-! ### Decimal representation helper

`Nat.repr` is the printing function the candidate file names interpolate;
`decDigits` is a structurally simple equivalent used to reason about it. -/

/-- Most-significant-first decimal digits of a natural number. -/
def decDigits (n : Nat) : List Char :=
  if h : n < 10 then [Nat.digitChar n]
  else decDigits (n / 10) ++ [Nat.digitChar (n % 10)]
decreasing_by exact Nat.div_lt_self (by omega) (by omega)

/-- The per-character action of `sanitizeKey` (replacement composed with
lowercasing), used to reason about it. -/
def sanChar (c : Char) : Char :=
  Char.toLower (if c.isAlphanum then c else '_')

/-! ## Helper lemmas: characters and `sanitizeKey` -/

theorem sanitizeKey_data (n : String) :
    (sanitizeKey n).data = n.data.map sanChar := by
  simp [sanitizeKey, sanChar, List.map_map, Function.comp]

theorem toLower_eq_self {c : Char} (h : ¬(65 ≤ c.toNat ∧ c.toNat ≤ 90)) :
    c.toLower = c := by
  unfold Char.toLower
  exact if_neg h

theorem isAlphanum_ranges (c : Char) (ha : c.isAlphanum = true) :
    (65 ≤ c.toNat ∧ c.toNat ≤ 90) ∨ (97 ≤ c.toNat ∧ c.toNat ≤ 122) ∨
      (48 ≤ c.toNat ∧ c.toNat ≤ 57) := by
  simp only [Char.isAlphanum, Char.isAlpha, Char.isUpper, Char.isLower,
    Char.isDigit, Bool.or_eq_true, Bool.and_eq_true, decide_eq_true_eq] at ha
  rcases ha with (⟨h1, h2⟩ | ⟨h1, h2⟩) | ⟨h1, h2⟩
  · exact Or.inl ⟨h1, h2⟩
  · exact Or.inr (Or.inl ⟨h1, h2⟩)
  · exact Or.inr (Or.inr ⟨h1, h2⟩)

theorem sanChar_spec (c : Char) :
    ((sanChar c).isLower = true ∨ (sanChar c).isDigit = true ∨
      sanChar c = '_') ∧ sanChar (sanChar c) = sanChar c := by
  by_cases ha : c.isAlphanum = true
  · rcases isAlphanum_ranges c ha with h | h | h
    · -- upper-case letters: enumerate the 26 characters
      have hc : Char.ofNat c.toNat = c := Char.ofNat_toNat c
      obtain ⟨h1, h2⟩ := h
      set n := c.toNat with hn
      interval_cases n <;> (rw [← hc]; exact ⟨by decide, by decide⟩)
    · -- lower-case letters are fixed points
      have hfix : c.toLower = c := toLower_eq_self (by omega)
      have hs : sanChar c = c := by simp [sanChar, ha, hfix]
      refine ⟨Or.inl ?_, by rw [hs]; exact hs⟩
      rw [hs]
      simp only [Char.isLower, Bool.and_eq_true, decide_eq_true_eq]
      exact ⟨h.1, h.2⟩
    · -- digits are fixed points
      have hfix : c.toLower = c := toLower_eq_self (by omega)
      have hs : sanChar c = c := by simp [sanChar, ha, hfix]
      refine ⟨Or.inr (Or.inl ?_), by rw [hs]; exact hs⟩
      rw [hs]
      simp only [Char.isDigit, Bool.and_eq_true, decide_eq_true_eq]
      exact ⟨h.1, h.2⟩
  · -- everything else is replaced with an underscore
    have ha' : c.isAlphanum = false := by
      exact Bool.not_eq_true _ ▸ eq_false_of_ne_true ha
    have hs : sanChar c = '_' := by simp [sanChar, ha']
    refine ⟨Or.inr (Or.inr hs), ?_⟩
    rw [hs]
    decide

/-- C7: for every field name `n`, `sanitizeKey n` contains only lowercase
alphanumerics and underscores, and `sanitizeKey` is idempotent:
`sanitizeKey (sanitizeKey n) = sanitizeKey n`.  (It is a pure function of
`n` by construction: it is a Lean function of `n` alone.) -/
theorem claim_C7_sanitizeKey (n : String) :
    (∀ c ∈ (sanitizeKey n).data,
      c.isLower = true ∨ c.isDigit = true ∨ c = '_') ∧
    sanitizeKey (sanitizeKey n) = sanitizeKey n := by
  constructor
  · intro c hc
    rw [sanitizeKey_data] at hc
    obtain ⟨a, _, rfl⟩ := List.mem_map.mp hc
    exact (sanChar_spec a).1
  · apply String.ext
    rw [sanitizeKey_data, sanitizeKey_data, List.map_map]
    exact List.map_congr_left (fun a _ => (sanChar_spec a).2)

/-- Witness for C7 at the concrete field name `"Invoice #1"`. -/
theorem claim_C7_witness :
    (('i' ∈ (sanitizeKey "Invoice #1").data) ∧
      ('i'.isLower = true ∨ 'i'.isDigit = true ∨ 'i' = '_')) ∧
    sanitizeKey (sanitizeKey "Invoice #1") = sanitizeKey "Invoice #1" :=
  ⟨⟨by decide, (claim_C7_sanitizeKey "Invoice #1").1 'i' (by decide)⟩,
    (claim_C7_sanitizeKey "Invoice #1").2⟩

/-! ## Helper lemmas: field colors -/

theorem addField_eq (name id : String) (fields : List FieldDefinition)
    (h : jsTrim name ≠ "") :
    addField name id fields =
      fields ++ [{ id := id, name := name, key := sanitizeKey name,
                   color := getNextColor fields.length }] := by
  unfold addField
  rw [if_neg (by simpa using h)]

theorem addAll_colors (ps : List (String × String)) :
    ∀ fields : List FieldDefinition,
      (∀ p ∈ ps, jsTrim p.1 ≠ "") →
      (∀ k (hk : k < fields.length),
        (fields.get ⟨k, hk⟩).color = COLORS.getD (k % COLORS.length) "") →
      ∀ k (hk : k < (addAll ps fields).length),
        ((addAll ps fields).get ⟨k, hk⟩).color =
          COLORS.getD (k % COLORS.length) "" := by
  induction ps with
  | nil => intro fields _ hinv k hk; exact hinv k hk
  | cons p ps ih =>
    intro fields hps hinv k hk
    have hname : jsTrim p.1 ≠ "" := hps p (by simp)
    refine ih (addField p.1 p.2 fields)
      (fun q hq => hps q (List.mem_cons_of_mem _ hq)) ?_ k hk
    intro j hj
    simp only [List.get_eq_getElem]
    simp only [addField_eq _ _ _ hname] at hj ⊢
    simp only [List.length_append, List.length_cons, List.length_nil] at hj
    by_cases hlt : j < fields.length
    · rw [List.getElem_append_left hlt]
      have := hinv j hlt
      simpa [List.get_eq_getElem] using this
    · have hj' : j = fields.length := by omega
      rw [List.getElem_concat_length _ _ _ hj']
      simp [getNextColor, hj']

/-- C8 counterexample: the color index counts the fields currently present,
not creation order.  Starting from an empty registry: add a field (id `"x"`,
creation index 0), remove it, then add a second field (id `"y"`, creation
index 1).  The claim predicts `palette[1 mod 10]` for the second-ever
created field, but the code assigns `palette[0]` because only zero fields
are present when it is added. -/
theorem claim_C8_counterexample :
    ((addField "b" "y" (removeField "x" (addField "a" "x" []))).map
        FieldDefinition.color = [COLORS.getD 0 ""]) ∧
    COLORS.getD 0 "" ≠ COLORS.getD (1 % COLORS.length) "" :=
  ⟨by decide, by decide⟩

/-- C8 (amended): `addField` assigns
`color = palette[(number of fields currently present) mod palette.length]`;
consequently, for any sequence of `addField` operations with non-blank
names starting from the empty registry (no removals interleaved), the
`k`-th field added receives `palette[k mod palette.length]`. -/
theorem claim_C8_palette :
    (∀ (name id : String) (fields : List FieldDefinition), jsTrim name ≠ "" →
      ∃ f, addField name id fields = fields ++ [f] ∧
        f.color = COLORS.getD (fields.length % COLORS.length) "") ∧
    (∀ ps : List (String × String), (∀ p ∈ ps, jsTrim p.1 ≠ "") →
      ∀ k (hk : k < (addAll ps []).length),
        ((addAll ps []).get ⟨k, hk⟩).color =
          COLORS.getD (k % COLORS.length) "") := by
  constructor
  · intro name id fields h
    exact ⟨_, addField_eq name id fields h, rfl⟩
  · intro ps hps k hk
    exact addAll_colors ps [] hps (by intro k hk; simp at hk) k hk

/-- Witness for the amended C8 at concrete inputs. -/
theorem claim_C8_witness :
    (∃ f, addField "Vendor" "id9" [] = [] ++ [f] ∧
      f.color = COLORS.getD (([] : List FieldDefinition).length % COLORS.length) "") ∧
    ((addAll [("a", "1"), ("b", "2")] []).get ⟨1, by decide⟩).color =
      COLORS.getD (1 % COLORS.length) "" :=
  ⟨claim_C8_palette.1 "Vendor" "id9" [] (by decide),
    claim_C8_palette.2 [("a", "1"), ("b", "2")] (by decide) 1 (by decide)⟩

/-! ## Helper lemmas: the extraction loop -/

theorem docEffect_id (oracle : Nat → Except Unit (List (String × ExtractedValue)))
    (i : Nat) (snap d : DocumentResult) :
    (docEffect oracle i snap d).id = d.id := by
  unfold docEffect
  by_cases h : snap.status = DocStatus.success
  · simp [h]
  · simp only [if_neg h]
    by_cases h2 : (d.id == snap.id) = true
    · simp only [if_pos h2]
      cases oracle i <;> rfl
    · simp [h2]


theorem updateById_updateById (state : List DocumentResult) (idv : String)
    (f g : DocumentResult → DocumentResult) (hf : ∀ d, (f d).id = d.id) :
    updateById (updateById state idv f) idv g =
      state.map (fun d => if d.id == idv then g (f d) else d) := by
  unfold updateById
  rw [List.map_map]
  refine List.map_congr_left (fun d _ => ?_)
  simp only [Function.comp]
  by_cases hid : (d.id == idv) = true
  · have h2 : ((f d).id == idv) = true := by rw [hf d]; exact hid
    simp [hid, h2]
  · simp [hid]

theorem runExtractionAux_fst (oracle : Nat → Except Unit (List (String × ExtractedValue))) :
    ∀ (todo : List (Nat × DocumentResult)) (state : List DocumentResult),
      (runExtractionAux oracle todo state).1 = state.map (runEffect oracle todo) := by
  intro todo
  induction todo with
  | nil =>
    intro state
    refine Eq.symm ?_
    calc state.map (runEffect oracle [])
        = state.map id := List.map_congr_left (fun a _ => rfl)
      _ = state := List.map_id state
  | cons p rest ih =>
    intro state
    obtain ⟨i, snap⟩ := p
    have hrhs : state.map (runEffect oracle ((i, snap) :: rest)) =
        (state.map (docEffect oracle i snap)).map (runEffect oracle rest) := by
      rw [List.map_map]
      exact List.map_congr_left (fun a _ => rfl)
    by_cases h : snap.status = DocStatus.success
    · have hstep : runExtractionAux oracle ((i, snap) :: rest) state
          = runExtractionAux oracle rest state := by
        simp [runExtractionAux, h]
      rw [hstep, ih state, hrhs, List.map_map]
      refine List.map_congr_left (fun a _ => ?_)
      simp only [Function.comp]
      congr 1
      simp [docEffect, h]
    · cases horacle : oracle i with
      | ok result =>
        have hstep : runExtractionAux oracle ((i, snap) :: rest) state
            = ((runExtractionAux oracle rest
                (updateById (updateById state snap.id markProcessing) snap.id
                  (markSuccess result))).1,
               i :: (runExtractionAux oracle rest
                (updateById (updateById state snap.id markProcessing) snap.id
                  (markSuccess result))).2) := by
          simp [runExtractionAux, h, horacle]
        rw [hstep]
        simp only
        rw [ih, updateById_updateById state snap.id markProcessing _ (fun d => rfl),
          hrhs, List.map_map, List.map_map]
        refine List.map_congr_left (fun d _ => ?_)
        simp only [Function.comp]
        congr 1
        simp [docEffect, h, horacle]
      | error e =>
        have hstep : runExtractionAux oracle ((i, snap) :: rest) state
            = ((runExtractionAux oracle rest
                (updateById (updateById state snap.id markProcessing) snap.id
                  markError)).1,
               i :: (runExtractionAux oracle rest
                (updateById (updateById state snap.id markProcessing) snap.id
                  markError)).2) := by
          simp [runExtractionAux, h, horacle]
        rw [hstep]
        simp only
        rw [ih, updateById_updateById state snap.id markProcessing _ (fun d => rfl),
          hrhs, List.map_map, List.map_map]
        refine List.map_congr_left (fun d _ => ?_)
        simp only [Function.comp]
        congr 1
        simp [docEffect, h, horacle]

theorem runExtractionAux_snd (oracle : Nat → Except Unit (List (String × ExtractedValue))) :
    ∀ (todo : List (Nat × DocumentResult)) (state : List DocumentResult),
      (runExtractionAux oracle todo state).2 =
        (todo.filter (fun p => !(p.2.status == DocStatus.success))).map Prod.fst := by
  intro todo
  induction todo with
  | nil => intro state; rfl
  | cons p rest ih =>
    intro state
    obtain ⟨i, snap⟩ := p
    by_cases h : snap.status = DocStatus.success
    · have hstep : runExtractionAux oracle ((i, snap) :: rest) state
          = runExtractionAux oracle rest state := by
        simp [runExtractionAux, h]
      rw [hstep, ih state]
      simp [List.filter, h]
    · cases horacle : oracle i with
      | ok result =>
        have hstep : (runExtractionAux oracle ((i, snap) :: rest) state).2
            = i :: (runExtractionAux oracle rest
                (updateById (updateById state snap.id markProcessing) snap.id
                  (markSuccess result))).2 := by
          simp [runExtractionAux, h, horacle]
        rw [hstep, ih]
        have hb : (snap.status == DocStatus.success) = false := by simp [h]
        simp [List.filter, hb]
      | error e =>
        have hstep : (runExtractionAux oracle ((i, snap) :: rest) state).2
            = i :: (runExtractionAux oracle rest
                (updateById (updateById state snap.id markProcessing) snap.id
                  markError)).2 := by
          simp [runExtractionAux, h, horacle]
        rw [hstep, ih]
        have hb : (snap.status == DocStatus.success) = false := by simp [h]
        simp [List.filter, hb]

theorem runExtraction_fst (oracle : Nat → Except Unit (List (String × ExtractedValue)))
    (docs : List DocumentResult) :
    (runExtraction oracle docs).1 = docs.map (runEffect oracle docs.enum) := by
  unfold runExtraction
  by_cases h : docs.length = 0
  · rw [if_pos h]
    rw [List.length_eq_zero] at h
    subst h
    rfl
  · rw [if_neg h]
    exact runExtractionAux_fst oracle docs.enum docs

theorem runExtraction_snd (oracle : Nat → Except Unit (List (String × ExtractedValue)))
    (docs : List DocumentResult) :
    (runExtraction oracle docs).2 =
      (docs.enum.filter (fun p => !(p.2.status == DocStatus.success))).map Prod.fst := by
  unfold runExtraction
  by_cases h : docs.length = 0
  · rw [if_pos h]
    rw [List.length_eq_zero] at h
    subst h
    rfl
  · rw [if_neg h]
    exact runExtractionAux_snd oracle docs.enum docs

theorem mem_enumFrom_spec {α : Type} :
    ∀ (l : List α) (n : Nat) (p : Nat × α), p ∈ List.enumFrom n l →
      ∃ j, ∃ hj : j < l.length, p.1 = n + j ∧ p.2 = l.get ⟨j, hj⟩ := by
  intro l
  induction l with
  | nil => intro n p hp; simp at hp
  | cons x xs ih =>
    intro n p hp
    rw [List.enumFrom_cons] at hp
    rcases List.mem_cons.mp hp with h | h
    · exact ⟨0, by simp, by simp [h], by simp [h]⟩
    · obtain ⟨j, hj, h1, h2⟩ := ih (n + 1) p h
      exact ⟨j + 1, by simpa using hj, by omega, by simpa using h2⟩

theorem runEffect_nomatch (oracle : Nat → Except Unit (List (String × ExtractedValue))) :
    ∀ (todo : List (Nat × DocumentResult)) (d : DocumentResult),
      (∀ p ∈ todo, p.2.id ≠ d.id) → runEffect oracle todo d = d := by
  intro todo
  induction todo with
  | nil => intro d _; rfl
  | cons p rest ih =>
    intro d hp
    obtain ⟨i, snap⟩ := p
    have hid : snap.id ≠ d.id := hp (i, snap) (by simp)
    have heq : docEffect oracle i snap d = d := by
      unfold docEffect
      have hb : (d.id == snap.id) = false := by
        apply beq_eq_false_iff_ne.mpr
        exact fun hcontra => hid hcontra.symm
      by_cases h : snap.status = DocStatus.success
      · simp [h]
      · simp [h, hb]
    show runEffect oracle rest (docEffect oracle i snap d) = d
    rw [heq]
    exact ih d (fun q hq => hp q (List.mem_cons_of_mem _ hq))

theorem runEffect_allSuccess (oracle : Nat → Except Unit (List (String × ExtractedValue))) :
    ∀ (todo : List (Nat × DocumentResult)) (d : DocumentResult),
      (∀ p ∈ todo, p.2.status = DocStatus.success) → runEffect oracle todo d = d := by
  intro todo
  induction todo with
  | nil => intro d _; rfl
  | cons p rest ih =>
    intro d hp
    obtain ⟨i, snap⟩ := p
    have hs : snap.status = DocStatus.success := hp (i, snap) (by simp)
    show runEffect oracle rest (docEffect oracle i snap d) = d
    rw [show docEffect oracle i snap d = d by simp [docEffect, hs]]
    exact ih d (fun q hq => hp q (List.mem_cons_of_mem _ hq))

theorem runEffect_match (oracle : Nat → Except Unit (List (String × ExtractedValue))) :
    ∀ (snaps : List DocumentResult) (n : Nat) (d : DocumentResult)
      (k : Nat) (hk : k < snaps.length),
      ((snaps.map (fun d => d.id)).Nodup) → d.id = (snaps.get ⟨k, hk⟩).id →
      runEffect oracle (List.enumFrom n snaps) d =
        docEffect oracle (n + k) (snaps.get ⟨k, hk⟩) d := by
  intro snaps
  induction snaps with
  | nil => intro n d k hk; simp at hk
  | cons s rest ih =>
    intro n d k hk hnd hid
    rw [List.map_cons, List.nodup_cons] at hnd
    obtain ⟨hs_notin, hnd_rest⟩ := hnd
    cases k with
    | zero =>
      have hid0 : d.id = s.id := hid
      rw [List.enumFrom_cons]
      show runEffect oracle (List.enumFrom (n + 1) rest) (docEffect oracle n s d)
          = docEffect oracle (n + 0) s d
      have hpres : (docEffect oracle n s d).id = d.id := docEffect_id oracle n s d
      rw [runEffect_nomatch oracle _ _ ?_]
      · norm_num
      · intro p hp
        obtain ⟨j, hj, _, hp2⟩ := mem_enumFrom_spec rest (n + 1) p hp
        rw [hpres, hid0, hp2]
        intro hcontra
        exact hs_notin (hcontra ▸ List.mem_map_of_mem (fun x => x.id)
          (List.get_mem rest j hj))
    | succ k' =>
      have hk' : k' < rest.length := by simpa using hk
      have hidr : d.id = (rest.get ⟨k', hk'⟩).id := hid
      have hneq : s.id ≠ d.id := by
        rw [hidr]
        intro hcontra
        exact hs_notin (hcontra ▸ List.mem_map_of_mem (fun x => x.id)
          (List.get_mem rest k' hk'))
      rw [List.enumFrom_cons]
      show runEffect oracle (List.enumFrom (n + 1) rest) (docEffect oracle n s d)
          = docEffect oracle (n + (k' + 1)) ((s :: rest).get ⟨k' + 1, hk⟩) d
      have heq : docEffect oracle n s d = d := by
        unfold docEffect
        have hb : (d.id == s.id) = false := by
          apply beq_eq_false_iff_ne.mpr
          exact fun hcontra => hneq hcontra.symm
        by_cases h : s.status = DocStatus.success
        · simp [h]
        · simp [h, hb]
      rw [heq]
      have := ih (n + 1) d k' hk' hnd_rest hidr
      rw [this]
      have harith : n + 1 + k' = n + (k' + 1) := by omega
      rw [harith]
      rfl

theorem runExtraction_getElem (oracle : Nat → Except Unit (List (String × ExtractedValue)))
    (docs : List DocumentResult) (hnd : (docs.map (fun d => d.id)).Nodup)
    (k : Nat) (hk : k < docs.length) :
    (runExtraction oracle docs).1[k]? =
      some (docEffect oracle k (docs.get ⟨k, hk⟩) (docs.get ⟨k, hk⟩)) := by
  rw [runExtraction_fst, List.getElem?_map]
  have hdocs : docs[k]? = some (docs.get ⟨k, hk⟩) := by
    rw [List.getElem?_eq_getElem hk]
    simp [List.get_eq_getElem]
  rw [hdocs]
  have hmatch := runEffect_match oracle docs 0 (docs.get ⟨k, hk⟩) k hk hnd rfl
  have henum : docs.enum = List.enumFrom 0 docs := rfl
  simp only [Option.map_some']
  rw [henum, hmatch]
  norm_num

/-- C1: `runExtraction` never issues a remote call for a document whose
status is already `success` at the start of the run (such documents are
skipped), and on a document set where every document is `success` it
issues zero remote calls and leaves the state unchanged. -/
theorem claim_C1_skip_success
    (oracle : Nat → Except Unit (List (String × ExtractedValue)))
    (docs : List DocumentResult) :
    (∀ k (hk : k < docs.length),
      (docs.get ⟨k, hk⟩).status = DocStatus.success →
      k ∉ (runExtraction oracle docs).2) ∧
    ((∀ d ∈ docs, d.status = DocStatus.success) →
      (runExtraction oracle docs).2 = [] ∧
      (runExtraction oracle docs).1 = docs) := by
  constructor
  · intro k hk hsucc hmem
    rw [runExtraction_snd] at hmem
    obtain ⟨p, hpfilter, hpfst⟩ := List.mem_map.mp hmem
    have hpmem := List.mem_filter.mp hpfilter
    obtain ⟨j, hj, hj1, hj2⟩ := mem_enumFrom_spec docs 0 p hpmem.1
    have hjk : j = k := by omega
    subst hjk
    have hstat : p.2.status = DocStatus.success := by
      rw [hj2]
      exact hsucc
    have hcond := hpmem.2
    rw [hstat] at hcond
    simp at hcond
  · intro hall
    constructor
    · rw [runExtraction_snd]
      have hnil : docs.enum.filter (fun p => !(p.2.status == DocStatus.success)) = [] := by
        apply List.filter_eq_nil.mpr
        intro p hp
        obtain ⟨j, hj, _, hp2⟩ := mem_enumFrom_spec docs 0 p hp
        have hsj := hall _ (List.get_mem docs j hj)
        rw [List.get_eq_getElem] at hsj
        simp [hp2, List.get_eq_getElem, hsj]
      rw [hnil]
      rfl
    · rw [runExtraction_fst]
      calc docs.map (runEffect oracle docs.enum)
          = docs.map id := List.map_congr_left (fun d _ => by
            apply runEffect_allSuccess
            intro p hp
            obtain ⟨j, hj, _, hp2⟩ := mem_enumFrom_spec docs 0 p hp
            rw [hp2]
            exact hall _ (List.get_mem docs j hj))
        _ = docs := List.map_id docs

/-- Witness for C1 on a concrete all-success document set: the second run
issues zero remote calls and changes nothing, and the success document at
index 0 is not called. -/
theorem claim_C1_witness :
    ((runExtraction (fun _ => Except.ok [])
      [{ id := "d1", fileName := "a.pdf", fileType := "application/pdf",
         previewUrl := none, status := DocStatus.success, errorMsg := none,
         data := [] }]).2 = [] ∧
     (runExtraction (fun _ => Except.ok [])
      [{ id := "d1", fileName := "a.pdf", fileType := "application/pdf",
         previewUrl := none, status := DocStatus.success, errorMsg := none,
         data := [] }]).1 =
      [{ id := "d1", fileName := "a.pdf", fileType := "application/pdf",
         previewUrl := none, status := DocStatus.success, errorMsg := none,
         data := [] }]) ∧
    0 ∉ (runExtraction (fun _ => Except.ok [])
      [{ id := "d1", fileName := "a.pdf", fileType := "application/pdf",
         previewUrl := none, status := DocStatus.success, errorMsg := none,
         data := [] }]).2 :=
  ⟨(claim_C1_skip_success _ _).2 (by decide),
   (claim_C1_skip_success _ _).1 0 (by decide) (by decide)⟩

/-- C2: one document's extraction failure is isolated.  With unique
document ids, comparing a run whose oracle fails at position `j` against a
run whose oracle agrees everywhere else, every other document reaches the
same terminal record; the failing document itself (if not already
`success`) ends in status `error`; and the loop proceeds identically
(the same remote calls are issued in both runs). -/
theorem claim_C2_isolation (docs : List DocumentResult)
    (oracle oracleOk : Nat → Except Unit (List (String × ExtractedValue)))
    (j : Nat) (hj : j < docs.length)
    (hnd : (docs.map (fun d => d.id)).Nodup)
    (hagree : ∀ i, i ≠ j → oracle i = oracleOk i)
    (hfail : oracle j = Except.error ()) :
    (∀ k, k ≠ j →
      (runExtraction oracle docs).1[k]? = (runExtraction oracleOk docs).1[k]?) ∧
    ((docs.get ⟨j, hj⟩).status ≠ DocStatus.success →
      ∃ d, (runExtraction oracle docs).1[j]? = some d ∧
        d.status = DocStatus.error) ∧
    (runExtraction oracle docs).2 = (runExtraction oracleOk docs).2 := by
  refine ⟨?_, ?_, ?_⟩
  · intro k hkj
    by_cases hk : k < docs.length
    · rw [runExtraction_getElem oracle docs hnd k hk,
        runExtraction_getElem oracleOk docs hnd k hk]
      have : oracle k = oracleOk k := hagree k hkj
      simp [docEffect, this]
    · have h1 : (runExtraction oracle docs).1.length ≤ k := by
        rw [runExtraction_fst]
        simpa using Nat.le_of_not_lt hk
      have h2 : (runExtraction oracleOk docs).1.length ≤ k := by
        rw [runExtraction_fst]
        simpa using Nat.le_of_not_lt hk
      rw [List.getElem?_eq_none h1, List.getElem?_eq_none h2]
  · intro hstat
    rw [runExtraction_getElem oracle docs hnd j hj]
    refine ⟨_, rfl, ?_⟩
    rw [List.get_eq_getElem] at hstat
    simp [docEffect, hstat, hfail, markError, markProcessing]
  · rw [runExtraction_snd, runExtraction_snd]

/-- Witness for C2: two idle documents with distinct ids; the oracle fails
on the first one only. -/
theorem claim_C2_witness :
    (∃ d, (runExtraction (fun i => if i = 0 then Except.error () else Except.ok [])
      [{ id := "d1", fileName := "a.pdf", fileType := "application/pdf",
         previewUrl := none, status := DocStatus.idle, errorMsg := none,
         data := [] },
       { id := "d2", fileName := "b.pdf", fileType := "application/pdf",
         previewUrl := none, status := DocStatus.idle, errorMsg := none,
         data := [] }]).1[0]? = some d ∧ d.status = DocStatus.error) ∧
    (runExtraction (fun i => if i = 0 then Except.error () else Except.ok [])
      [{ id := "d1", fileName := "a.pdf", fileType := "application/pdf",
         previewUrl := none, status := DocStatus.idle, errorMsg := none,
         data := [] },
       { id := "d2", fileName := "b.pdf", fileType := "application/pdf",
         previewUrl := none, status := DocStatus.idle, errorMsg := none,
         data := [] }]).2 =
    (runExtraction (fun _ => Except.ok [])
      [{ id := "d1", fileName := "a.pdf", fileType := "application/pdf",
         previewUrl := none, status := DocStatus.idle, errorMsg := none,
         data := [] },
       { id := "d2", fileName := "b.pdf", fileType := "application/pdf",
         previewUrl := none, status := DocStatus.idle, errorMsg := none,
         data := [] }]).2 := by
  have h := claim_C2_isolation
    [{ id := "d1", fileName := "a.pdf", fileType := "application/pdf",
       previewUrl := none, status := DocStatus.idle, errorMsg := none,
       data := [] },
     { id := "d2", fileName := "b.pdf", fileType := "application/pdf",
       previewUrl := none, status := DocStatus.idle, errorMsg := none,
       data := [] }]
    (fun i => if i = 0 then Except.error () else Except.ok [])
    (fun _ => Except.ok []) 0 (by decide) (by decide)
    (fun i hi => by simp [hi]) (by simp)
  exact ⟨h.2.1 (by decide), h.2.2⟩

/-! ## Reconciliation claims -/

/-- C3: `runReconciliation` refuses with a user-facing message and issues
no remote call whenever there is no `success` document or the reference
row collection is empty; a remote call can be issued only when both
preconditions hold. -/
theorem claim_C3_preconditions (apiKey : Bool)
    (remote : List ReconRow → Except Unit GenResponse)
    (documents : List DocumentResult) (fields : List FieldDefinition)
    (referenceData : List ReconRow) (prompt : String) :
    (((documents.filter (fun d => d.status == DocStatus.success)).length = 0) →
      (runReconciliation apiKey remote documents fields referenceData prompt).1
          = ReconcileOutcome.refused
              "Please extract data from documents first (Tick phase)." ∧
      (runReconciliation apiKey remote documents fields referenceData prompt).2 = 0) ∧
    (((documents.filter (fun d => d.status == DocStatus.success)).length ≠ 0 ∧
        referenceData.length = 0) →
      (runReconciliation apiKey remote documents fields referenceData prompt).1
          = ReconcileOutcome.refused "Please upload a reference dataset." ∧
      (runReconciliation apiKey remote documents fields referenceData prompt).2 = 0) ∧
    ((runReconciliation apiKey remote documents fields referenceData prompt).2 ≠ 0 →
      (documents.filter (fun d => d.status == DocStatus.success)).length ≠ 0 ∧
      referenceData.length ≠ 0) := by
  refine ⟨?_, ?_, ?_⟩
  · intro h1
    unfold runReconciliation
    simp only [if_pos h1]
    simp
  · intro h
    unfold runReconciliation
    simp only [if_neg h.1, if_pos h.2]
    simp
  · intro hcalls
    by_cases h1 : (documents.filter (fun d => d.status == DocStatus.success)).length = 0
    · exfalso
      apply hcalls
      unfold runReconciliation
      simp only [if_pos h1]
    · by_cases h2 : referenceData.length = 0
      · exfalso
        apply hcalls
        unfold runReconciliation
        simp only [if_neg h1, if_pos h2]
      · exact ⟨h1, h2⟩

/-- Witness for C3 at concrete inputs: an empty document set is refused
with no call, and a non-empty document set with empty reference rows is
refused with no call. -/
theorem claim_C3_witness :
    ((runReconciliation true (fun _ => Except.ok ⟨some "r", []⟩) [] [] [] "p").1
        = ReconcileOutcome.refused
            "Please extract data from documents first (Tick phase)." ∧
      (runReconciliation true (fun _ => Except.ok ⟨some "r", []⟩) [] [] [] "p").2 = 0) ∧
    ((runReconciliation true (fun _ => Except.ok ⟨some "r", []⟩)
        [{ id := "d1", fileName := "a.pdf", fileType := "application/pdf",
           previewUrl := none, status := DocStatus.success, errorMsg := none,
           data := [] }] [] [] "p").1
        = ReconcileOutcome.refused "Please upload a reference dataset." ∧
      (runReconciliation true (fun _ => Except.ok ⟨some "r", []⟩)
        [{ id := "d1", fileName := "a.pdf", fileType := "application/pdf",
           previewUrl := none, status := DocStatus.success, errorMsg := none,
           data := [] }] [] [] "p").2 = 0) :=
  ⟨(claim_C3_preconditions true _ [] [] [] "p").1 (by decide),
   (claim_C3_preconditions true _ _ [] [] "p").2.1 ⟨by decide, by decide⟩⟩

/-- C4: whenever the reconciliation remote interaction fails — missing API
key or a failed remote call — the orchestration still returns a
`ReconcileResult` (no exception escapes: the function is total into
`ReconcileOutcome`), namely the sentinel whose report is the fixed error
message and whose code is empty. -/
theorem claim_C4_failure_sentinel (apiKey : Bool)
    (remote : List ReconRow → Except Unit GenResponse)
    (documents : List DocumentResult) (fields : List FieldDefinition)
    (referenceData : List ReconRow) (prompt : String)
    (h1 : (documents.filter (fun d => d.status == DocStatus.success)).length ≠ 0)
    (h2 : referenceData.length ≠ 0)
    (hfail : apiKey = false ∨
      remote (reconcileProjection documents fields) = Except.error ()) :
    (runReconciliation apiKey remote documents fields referenceData prompt).1
      = ReconcileOutcome.completed
          { report := "An error occurred during analysis.", code := "" } := by
  unfold runReconciliation
  simp only [if_neg h1, if_neg h2]
  rcases hfail with hkey | hremote
  · subst hkey
    rfl
  · unfold reconcileData
    cases apiKey with
    | false => rfl
    | true =>
      simp only [Bool.not_true, if_neg (by decide : ¬ false = true)]
      rw [hremote]

/-- Witness for C4: one success document, one reference row, failing
remote call. -/
theorem claim_C4_witness :
    (runReconciliation true (fun _ => Except.error ())
      [{ id := "d1", fileName := "a.pdf", fileType := "application/pdf",
         previewUrl := none, status := DocStatus.success, errorMsg := none,
         data := [] }] [] [[("Amount", JsValue.num 5)]] "p").1
      = ReconcileOutcome.completed
          { report := "An error occurred during analysis.", code := "" } :=
  claim_C4_failure_sentinel true (fun _ => Except.error ())
    [{ id := "d1", fileName := "a.pdf", fileType := "application/pdf",
       previewUrl := none, status := DocStatus.success, errorMsg := none,
       data := [] }] [] [[("Amount", JsValue.num 5)]] "p"
    (by decide) (by decide) (Or.inr rfl)

/-! ## Helper lemmas: decimal representations -/

theorem decDigits_eq (k : Nat) :
    decDigits k = if h : k < 10 then [Nat.digitChar k]
      else decDigits (k / 10) ++ [Nat.digitChar (k % 10)] := by
  rw [decDigits]

theorem toDigitsCore_eq : ∀ (fuel n : Nat) (ds : List Char), n < fuel →
    Nat.toDigitsCore 10 fuel n ds = decDigits n ++ ds := by
  intro fuel
  induction fuel with
  | zero => intro n ds h; omega
  | succ f ih =>
    intro n ds h
    simp only [Nat.toDigitsCore]
    by_cases h10 : n / 10 = 0
    · rw [if_pos h10]
      have hn : n < 10 := by
        by_contra hc
        push_neg at hc
        have h1 : 1 ≤ n / 10 := (Nat.one_le_div_iff (by omega)).mpr hc
        omega
      rw [decDigits_eq n, dif_pos hn, Nat.mod_eq_of_lt hn]
      rfl
    · rw [if_neg h10]
      have hlt : n / 10 < f := by
        have h1 : n / 10 < n := Nat.div_lt_self (by omega) (by omega)
        omega
      rw [ih (n / 10) (Nat.digitChar (n % 10) :: ds) hlt]
      have hn : ¬ n < 10 := by
        intro hc
        exact h10 (Nat.div_eq_of_lt hc)
      conv_rhs => rw [decDigits_eq n, dif_neg hn]
      simp

theorem toDigits10_eq (n : Nat) : Nat.toDigits 10 n = decDigits n := by
  unfold Nat.toDigits
  rw [toDigitsCore_eq (n + 1) n [] (by omega)]
  simp

theorem natRepr_data (n : Nat) : (Nat.repr n).data = decDigits n := by
  unfold Nat.repr
  rw [toDigits10_eq]
  rfl

theorem digitChar_isDigit : ∀ m, m < 10 → (Nat.digitChar m).isDigit = true := by decide

theorem digitChar_inj10 : ∀ m, m < 10 → ∀ k, k < 10 →
    Nat.digitChar m = Nat.digitChar k → m = k := by decide

theorem decDigits_ne_nil (n : Nat) : decDigits n ≠ [] := by
  rw [decDigits_eq n]
  by_cases h : n < 10 <;> simp [h]

theorem decDigits_all_digit : ∀ n, ∀ c ∈ decDigits n, c.isDigit = true := by
  intro n
  induction n using Nat.strong_induction_on with
  | _ n ih =>
    intro c hc
    rw [decDigits_eq n] at hc
    by_cases h : n < 10
    · rw [dif_pos h] at hc
      simp at hc
      rw [hc]
      exact digitChar_isDigit n h
    · rw [dif_neg h] at hc
      rcases List.mem_append.mp hc with h1 | h1
      · exact ih (n / 10) (Nat.div_lt_self (by omega) (by omega)) c h1
      · simp at h1
        rw [h1]
        exact digitChar_isDigit _ (Nat.mod_lt _ (by omega))

theorem append_singleton_inj {α : Type} {l l' : List α} {a b : α}
    (h : l ++ [a] = l' ++ [b]) : l = l' ∧ a = b := by
  have h2 := congrArg List.reverse h
  simp only [List.reverse_append, List.reverse_cons, List.reverse_nil,
    List.nil_append, List.singleton_append] at h2
  injection h2 with h3 h4
  refine ⟨?_, h3⟩
  rw [← List.reverse_reverse l, h4, List.reverse_reverse]

theorem decDigits_inj : ∀ m n, decDigits m = decDigits n → m = n := by
  intro m
  induction m using Nat.strong_induction_on with
  | _ m ih =>
    intro n h
    by_cases hm : m < 10
    · by_cases hn : n < 10
      · rw [decDigits_eq m, dif_pos hm, decDigits_eq n, dif_pos hn] at h
        simp at h
        exact digitChar_inj10 m hm n hn h
      · exfalso
        rw [decDigits_eq m, dif_pos hm, decDigits_eq n, dif_neg hn] at h
        have hlen := congrArg List.length h
        simp at hlen
        have := decDigits_ne_nil (n / 10)
        cases hdd : decDigits (n / 10) with
        | nil => exact this hdd
        | cons x xs => rw [hdd] at hlen; simp at hlen
    · by_cases hn : n < 10
      · exfalso
        rw [decDigits_eq m, dif_neg hm, decDigits_eq n, dif_pos hn] at h
        have hlen := congrArg List.length h
        simp at hlen
        have := decDigits_ne_nil (m / 10)
        cases hdd : decDigits (m / 10) with
        | nil => exact this hdd
        | cons x xs => rw [hdd] at hlen; simp at hlen
      · rw [decDigits_eq m, dif_neg hm, decDigits_eq n, dif_neg hn] at h
        obtain ⟨h1, h2⟩ := append_singleton_inj h
        have hdiv : m / 10 = n / 10 :=
          ih (m / 10) (Nat.div_lt_self (by omega) (by omega)) (n / 10) h1
        have hmod : m % 10 = n % 10 :=
          digitChar_inj10 _ (Nat.mod_lt _ (by omega)) _ (Nat.mod_lt _ (by omega)) h2
        omega

theorem natRepr_inj {m n : Nat} (h : Nat.repr m = Nat.repr n) : m = n := by
  apply decDigits_inj
  rw [← natRepr_data, ← natRepr_data, h]

theorem natRepr_length_pos (n : Nat) : 0 < (Nat.repr n).data.length := by
  rw [natRepr_data]
  cases hdd : decDigits n with
  | nil => exact absurd hdd (decDigits_ne_nil n)
  | cons x xs => simp

theorem natRepr_all_digit (n : Nat) : ∀ c ∈ (Nat.repr n).data, c.isDigit = true := by
  rw [natRepr_data]
  exact decDigits_all_digit n

theorem intRepr_chars (i : Int) : ∀ c ∈ (Int.repr i).data,
    c.isDigit = true ∨ c = '-' := by
  cases i with
  | ofNat m =>
    intro c hc
    exact Or.inl (natRepr_all_digit m c hc)
  | negSucc m =>
    intro c hc
    rw [show Int.repr (Int.negSucc m) = "-" ++ Nat.repr (Nat.succ m) from rfl,
      String.data_append] at hc
    rcases List.mem_append.mp hc with h | h
    · right
      simpa using h
    · exact Or.inl (natRepr_all_digit _ c h)

/-! ## Export cell claims -/

theorem jsonItems_chars : ∀ l : List Int, ∀ c ∈ (jsonItems l).data,
    c.isDigit = true ∨ c = '-' ∨ c = ',' := by
  intro l
  induction l with
  | nil => intro c hc; simp [jsonItems] at hc
  | cons x xs ih =>
    cases xs with
    | nil =>
      intro c hc
      rw [show jsonItems [x] = Int.repr x from rfl] at hc
      rcases intRepr_chars x c hc with h | h
      · exact Or.inl h
      · exact Or.inr (Or.inl h)
    | cons y ys =>
      intro c hc
      rw [show jsonItems (x :: y :: ys) = Int.repr x ++ "," ++ jsonItems (y :: ys)
          from rfl, String.data_append, String.data_append] at hc
      rcases List.mem_append.mp hc with h | h
      · rcases List.mem_append.mp h with h1 | h1
        · rcases intRepr_chars x c h1 with h2 | h2
          · exact Or.inl h2
          · exact Or.inr (Or.inl h2)
        · right; right; simpa using h1
      · exact ih c h

theorem jsonIntArray_no_space (l : List Int) :
    (' ' : Char) ∉ (jsonIntArray l).data := by
  intro hmem
  unfold jsonIntArray at hmem
  rw [String.data_append, String.data_append] at hmem
  rcases List.mem_append.mp hmem with h | h
  · rcases List.mem_append.mp h with h1 | h1
    · simp at h1
    · rcases jsonItems_chars l ' ' h1 with h2 | h2 | h2 <;> simp at h2
  · simp at h

/-- C9: a present bounding box serializes in the export coordinate cell to
the literal array-of-integers text with no spaces — `[100,200,300,400]`
yields exactly `"[100,200,300,400]"` — and an absent `box_2d` or an absent
extraction entry yields the empty string. -/
theorem claim_C9_box_serialization (data : List (String × ExtractedValue))
    (key : String) :
    (∀ ev : ExtractedValue, List.lookup key data = some ev →
      (ev.box_2d = some [100, 200, 300, 400] →
        exportCoordCell data key = "[100,200,300,400]") ∧
      (∀ a b c d : Int, ev.box_2d = some [a, b, c, d] →
        (exportCoordCell data key).data =
          '[' :: ((Int.repr a).data ++ ',' :: ((Int.repr b).data ++
            ',' :: ((Int.repr c).data ++ ',' :: ((Int.repr d).data ++ [']']))))) ∧
      (∀ box, ev.box_2d = some box →
        (' ' : Char) ∉ (exportCoordCell data key).data) ∧
      (ev.box_2d = none → exportCoordCell data key = "")) ∧
    (List.lookup key data = none → exportCoordCell data key = "") := by
  have hcell : ∀ ev, List.lookup key data = some ev →
      exportCoordCell data key =
        (match ev.box_2d with
          | none => ""
          | some box => jsonIntArray box) := by
    intro ev hev
    unfold exportCoordCell
    rw [hev]
  constructor
  · intro ev hev
    refine ⟨?_, ?_, ?_, ?_⟩
    · intro hbox
      rw [hcell ev hev, hbox]
      decide
    · intro a b c d hbox
      rw [hcell ev hev, hbox]
      simp [jsonIntArray, jsonItems, String.data_append]
    · intro box hbox
      rw [hcell ev hev, hbox]
      exact jsonIntArray_no_space box
    · intro hbox
      rw [hcell ev hev, hbox]
  · intro h
    unfold exportCoordCell
    rw [h]

/-- Witness for C9 at concrete data. -/
theorem claim_C9_witness :
    exportCoordCell
        ([("total_amount",
          { value := JsValue.str "5", box_2d := some [100, 200, 300, 400] })]
          : List (String × ExtractedValue))
        "total_amount" = "[100,200,300,400]" ∧
    exportCoordCell
        ([("total_amount", { value := JsValue.str "5", box_2d := none })]
          : List (String × ExtractedValue)) "total_amount" = "" ∧
    exportCoordCell
        ([("total_amount",
          { value := JsValue.str "5", box_2d := some [100, 200, 300, 400] })]
          : List (String × ExtractedValue)) "other_key" = "" :=
  ⟨((claim_C9_box_serialization _ "total_amount").1
      { value := JsValue.str "5", box_2d := some [100, 200, 300, 400] }
      (by decide)).1 (by decide),
   ((claim_C9_box_serialization _ "total_amount").1
      { value := JsValue.str "5", box_2d := none } (by decide)).2.2.2 (by decide),
   (claim_C9_box_serialization _ "other_key").2 (by decide)⟩

/-- C10 (implicit): a present-but-falsy extracted value — the empty string
or the number 0 — is indistinguishable from an absent entry in every
consumer: the export value cell writes `""`, the reconciliation row
projection cell (`jsOrElse` of the looked-up value with `null`, exactly the
expression used by `reconcileProjection`) produces `null`, and the results
table shows `"-"`; the same three outputs arise when the entry is absent. -/
theorem claim_C10_falsy_values (data : List (String × ExtractedValue))
    (key : String) :
    (∀ ev, List.lookup key data = some ev →
      (ev.value = JsValue.str "" ∨ ev.value = JsValue.num 0) →
      exportValueCell data key = JsValue.str "" ∧
      jsOrElse ((List.lookup key data).map (·.value)) JsValue.null
        = JsValue.null ∧
      displayCell data key = JsValue.str "-") ∧
    (List.lookup key data = none →
      exportValueCell data key = JsValue.str "" ∧
      jsOrElse ((List.lookup key data).map (·.value)) JsValue.null
        = JsValue.null ∧
      displayCell data key = JsValue.str "-") := by
  constructor
  · intro ev hev hfalsy
    have hfalse : jsTruthy ev.value = false := by
      rcases hfalsy with h | h <;> rw [h] <;> rfl
    refine ⟨?_, ?_, ?_⟩
    · unfold exportValueCell
      rw [hev]
      simp [jsOrElse, hfalse]
    · rw [hev]
      simp [jsOrElse, hfalse]
    · unfold displayCell
      rw [hev]
      simp [jsOrElse, hfalse]
  · intro hnone
    refine ⟨?_, ?_, ?_⟩
    · unfold exportValueCell
      rw [hnone]
      rfl
    · rw [hnone]
      rfl
    · unfold displayCell
      rw [hnone]
      rfl

/-- Witness for C10: empty-string and zero values at concrete data. -/
theorem claim_C10_witness :
    (exportValueCell
        ([("amount", { value := JsValue.num 0, box_2d := none })]
          : List (String × ExtractedValue)) "amount" = JsValue.str "" ∧
      jsOrElse ((List.lookup "amount"
          ([("amount", { value := JsValue.num 0, box_2d := none })]
            : List (String × ExtractedValue))).map (·.value))
        JsValue.null = JsValue.null ∧
      displayCell
        ([("amount", { value := JsValue.num 0, box_2d := none })]
          : List (String × ExtractedValue)) "amount" = JsValue.str "-") ∧
    (exportValueCell
        ([("amount", { value := JsValue.str "", box_2d := none })]
          : List (String × ExtractedValue)) "amount" = JsValue.str "" ∧
      jsOrElse ((List.lookup "amount"
          ([("amount", { value := JsValue.str "", box_2d := none })]
            : List (String × ExtractedValue))).map (·.value))
        JsValue.null = JsValue.null ∧
      displayCell
        ([("amount", { value := JsValue.str "", box_2d := none })]
          : List (String × ExtractedValue)) "amount" = JsValue.str "-") :=
  ⟨(claim_C10_falsy_values _ "amount").1
      { value := JsValue.num 0, box_2d := none } (by decide) (Or.inr rfl),
   (claim_C10_falsy_values _ "amount").1
      { value := JsValue.str "", box_2d := none } (by decide) (Or.inl rfl)⟩

/-! ## Helper lemmas: export filename de-duplication -/

theorem candidateName_inj (base ext : String) {i j : Nat}
    (h : candidateName base ext i = candidateName base ext j) : i = j := by
  unfold candidateName at h
  have hd := congrArg String.data h
  simp only [String.data_append] at hd
  have h1 := List.append_cancel_right hd
  have h2 := List.append_cancel_left h1
  exact natRepr_inj (String.ext h2)

theorem candidateName_length (base ext : String) (i : Nat) :
    (candidateName base ext i).data.length =
      base.data.length + 1 + (Nat.repr i).data.length + ext.data.length := by
  unfold candidateName
  simp only [String.data_append, List.length_append]
  simp

theorem splitExtension_length (name : String) :
    (splitExtension name).1.data.length + (splitExtension name).2.data.length
      = name.data.length := by
  unfold splitExtension
  cases h : lastDotIndex name.data with
  | none => simp
  | some i =>
    simp only
    rw [List.length_take, List.length_drop]
    omega

theorem candidateName_ne_name (name : String) (i : Nat) :
    candidateName (splitExtension name).1 (splitExtension name).2 i ≠ name := by
  intro h
  have hlen := congrArg (fun s => s.data.length) h
  simp only at hlen
  rw [candidateName_length] at hlen
  have hsplit := splitExtension_length name
  have hpos := natRepr_length_pos i
  omega

theorem dedupLoop_succ (used : List String) (base ext : String)
    (f : Nat) (cand : String) (counter : Nat) :
    dedupLoop used base ext (f + 1) cand counter =
      if used.contains cand then
        dedupLoop used base ext f (candidateName base ext counter) (counter + 1)
      else cand := rfl

theorem dedupLoop_fresh (used : List String) (base ext : String) :
    ∀ (fuel : Nat) (cand : String) (counter : Nat),
      (cand ∉ used ∨
        ∃ i, counter ≤ i ∧ i + 1 < counter + fuel ∧
          candidateName base ext i ∉ used) →
      dedupLoop used base ext fuel cand counter ∉ used := by
  intro fuel
  induction fuel with
  | zero =>
    intro cand counter h
    rcases h with h | ⟨i, h1, h2, _⟩
    · exact h
    · omega
  | succ f ih =>
    intro cand counter h
    by_cases hc : cand ∈ used
    · have hcb : used.contains cand = true := List.elem_iff.mpr hc
      rw [dedupLoop_succ, hcb, if_pos rfl]
      apply ih
      rcases h with h | ⟨i, h1, h2, h3⟩
      · exact absurd hc h
      · by_cases hi : i = counter
        · exact Or.inl (hi ▸ h3)
        · exact Or.inr ⟨i, by omega, by omega, h3⟩
    · have hcb : used.contains cand = false := by
        rw [← Bool.not_eq_true]
        intro hcontra
        exact hc (List.elem_iff.mp hcontra)
      rw [dedupLoop_succ, hcb]
      rw [if_neg (by simp)]
      exact hc

theorem resolveUnique_fresh (used : List String) (name : String) :
    resolveUnique used name ∉ used := by
  unfold resolveUnique
  apply dedupLoop_fresh
  by_cases hn : name ∈ used
  · right
    by_contra hall
    push_neg at hall
    have hall' : ∀ i, 1 ≤ i → i ≤ used.length →
        candidateName (splitExtension name).1 (splitExtension name).2 i ∈ used := by
      intro i hi1 hi2
      exact hall i hi1 (by omega)
    -- the used.length + 1 pairwise-distinct strings below would all lie in `used`
    have hsub : (name :: (List.range' 1 used.length).map
        (candidateName (splitExtension name).1 (splitExtension name).2)) ⊆ used := by
      intro x hx
      rcases List.mem_cons.mp hx with h | h
      · exact h ▸ hn
      · obtain ⟨i, hi, rfl⟩ := List.mem_map.mp h
        obtain ⟨k, hk, hik⟩ := List.mem_range'.mp hi
        exact hall' i (by omega) (by omega)
    have hnodup : (name :: (List.range' 1 used.length).map
        (candidateName (splitExtension name).1 (splitExtension name).2)).Nodup := by
      rw [List.nodup_cons]
      constructor
      · intro hmem
        obtain ⟨i, _, hci⟩ := List.mem_map.mp hmem
        exact candidateName_ne_name name i hci
      · exact (List.nodup_range' 1 used.length).map
          (fun a b hab => candidateName_inj _ _ hab)
    have hle := List.Subperm.length_le (List.subperm_of_subset hnodup hsub)
    simp at hle
  · exact Or.inl hn

theorem resolveNamesAux_nodup :
    ∀ (names : List String) (acc : List String), acc.Nodup →
      (resolveNamesAux acc names).Nodup := by
  intro names
  induction names with
  | nil => intro acc h; exact h
  | cons n ns ih =>
    intro acc hacc
    apply ih
    rw [List.nodup_append]
    refine ⟨hacc, by simp, ?_⟩
    intro x hx
    simp only [List.mem_singleton]
    intro hxe
    subst hxe
    exact absurd hx (resolveUnique_fresh acc n)

/-- C5: export filename de-duplication.  The concrete example
`["a.pdf","a.pdf","a.pdf"]` resolves to `["a.pdf","a_1.pdf","a_2.pdf"]` in
input order; the resolved names of any export are pairwise distinct; and a
file name not yet used resolves to itself (the `_<n>` suffix loop only
engages on a collision). -/
theorem claim_C5_dedup :
    resolveNames ["a.pdf", "a.pdf", "a.pdf"] = ["a.pdf", "a_1.pdf", "a_2.pdf"] ∧
    (∀ names : List String, (resolveNames names).Nodup) ∧
    (∀ (used : List String) (name : String), name ∉ used →
      resolveUnique used name = name) := by
  refine ⟨by decide, ?_, ?_⟩
  · intro names
    exact resolveNamesAux_nodup names [] (by simp)
  · intro used name hn
    unfold resolveUnique
    have hcb : used.contains name = false := by
      rw [← Bool.not_eq_true]
      intro hcontra
      exact hn (List.elem_iff.mp hcontra)
    rw [dedupLoop_succ, hcb]
    rw [if_neg (by simp)]

/-- Witness for C5 at a concrete fresh name. -/
theorem claim_C5_witness :
    resolveUnique ["b.pdf"] "a.pdf" = "a.pdf" :=
  claim_C5_dedup.2.2 ["b.pdf"] "a.pdf" (by decide)

/-! ## Helper lemmas: markdown table parsing -/

theorem pmt_pre :
    ∀ (pre xs : List String) (data : List (List String)),
      (∀ l ∈ pre,
        (jsStartsWith (jsTrim l) "|" && jsEndsWith (jsTrim l) "|") = false) →
      pmtLoop (pre ++ xs) data false = pmtLoop xs data false := by
  intro pre
  induction pre with
  | nil => intro xs data _; rfl
  | cons l ls ih =>
    intro xs data hpre
    have hl := hpre l (by simp)
    rw [show (l :: ls) ++ xs = l :: (ls ++ xs) from rfl]
    rw [show pmtLoop (l :: (ls ++ xs)) data false = pmtLoop (ls ++ xs) data false by
      simp [pmtLoop, hl]]
    exact ih xs data (fun q hq => hpre q (List.mem_cons_of_mem _ hq))

theorem pmt_table :
    ∀ (tlines : List String) (xs : List String) (data : List (List String))
      (started : Bool),
      (∀ l ∈ tlines,
        (jsStartsWith (jsTrim l) "|" && jsEndsWith (jsTrim l) "|") = true) →
      pmtLoop (tlines ++ xs) data started =
        pmtLoop xs (data ++ expectedRows tlines)
          (started || tlines.any (fun l => !(isSepLine (jsTrim l)))) := by
  intro tlines
  induction tlines with
  | nil => intro xs data started _; simp [expectedRows]
  | cons l ts ih =>
    intro xs data started hpipe
    have hl := hpipe l (by simp)
    by_cases hsep : isSepLine (jsTrim l) = true
    · rw [show (l :: ts) ++ xs = l :: (ts ++ xs) from rfl]
      rw [show pmtLoop (l :: (ts ++ xs)) data started
          = pmtLoop (ts ++ xs) data started by simp [pmtLoop, hl, hsep]]
      rw [ih xs data started (fun q hq => hpipe q (List.mem_cons_of_mem _ hq))]
      have hrows : expectedRows (l :: ts) = expectedRows ts := by
        simp [expectedRows, hsep]
      have hany : (l :: ts).any (fun l => !(isSepLine (jsTrim l)))
          = ts.any (fun l => !(isSepLine (jsTrim l))) := by
        simp [hsep]
      rw [hrows, hany]
    · have hsep' : isSepLine (jsTrim l) = false := by
        rw [← Bool.not_eq_true]
        exact hsep
      rw [show (l :: ts) ++ xs = l :: (ts ++ xs) from rfl]
      rw [show pmtLoop (l :: (ts ++ xs)) data started
          = pmtLoop (ts ++ xs) (data ++ [rowCells (jsTrim l)]) true by
        simp [pmtLoop, hl, hsep']]
      rw [ih xs (data ++ [rowCells (jsTrim l)]) true
        (fun q hq => hpipe q (List.mem_cons_of_mem _ hq))]
      have hrows : expectedRows (l :: ts)
          = [rowCells (jsTrim l)] ++ expectedRows ts := by
        simp [expectedRows, hsep']
      have hany : (l :: ts).any (fun l => !(isSepLine (jsTrim l))) = true := by
        simp [hsep']
      rw [hrows, hany]
      simp [List.append_assoc]

/-- C6: for a report whose lines consist of non-pipe prose, then one run of
pipe lines containing at least one non-separator row, then a blank line,
then anything at all, `parseMarkdownTable` returns exactly the pipe run's
rows in order — each row split into trimmed cells, separator rows excluded
— and nothing from after the blank line (parsing stops there, so at most
one table is extracted). -/
theorem claim_C6_first_table (markdown : String) (pre tlines rest : List String)
    (hsplit : jsSplit markdown '\n' = pre ++ tlines ++ [""] ++ rest)
    (hpre : ∀ l ∈ pre,
      (jsStartsWith (jsTrim l) "|" && jsEndsWith (jsTrim l) "|") = false)
    (htab : ∀ l ∈ tlines,
      (jsStartsWith (jsTrim l) "|" && jsEndsWith (jsTrim l) "|") = true)
    (hnonsep : ∃ l ∈ tlines, isSepLine (jsTrim l) = false) :
    parseMarkdownTable markdown = some (expectedRows tlines) := by
  unfold parseMarkdownTable
  rw [hsplit]
  rw [show pre ++ tlines ++ [""] ++ rest = pre ++ (tlines ++ ([""] ++ rest)) by
    simp [List.append_assoc]]
  rw [pmt_pre pre (tlines ++ ([""] ++ rest)) [] hpre,
    pmt_table tlines ([""] ++ rest) [] false htab]
  have hany : tlines.any (fun l => !(isSepLine (jsTrim l))) = true := by
    rw [List.any_eq_true]
    obtain ⟨l, hl, hsepl⟩ := hnonsep
    exact ⟨l, hl, by simp [hsepl]⟩
  rw [hany]
  have hstep : pmtLoop ([""] ++ rest) ([] ++ expectedRows tlines) (false || true)
      = expectedRows tlines := by
    simp [pmtLoop, jsTrim, jsStartsWith, jsEndsWith]
  rw [hstep]
  obtain ⟨l, hl, hsepl⟩ := hnonsep
  have hmem : rowCells (jsTrim l) ∈ expectedRows tlines := by
    unfold expectedRows
    apply List.mem_map_of_mem
    rw [List.mem_filter]
    exact ⟨List.mem_map_of_mem jsTrim hl, by simp [hsepl]⟩
  have hlen : 0 < (expectedRows tlines).length := List.length_pos_of_mem hmem
  rw [if_pos hlen]

/-- Witness for C6 at a concrete report containing prose, one table, a
blank line and trailing prose with a second table. -/
theorem claim_C6_witness :
    parseMarkdownTable
        "Intro\n| a | b |\n|---|---|\n| 1 | 2 |\n\nMore prose.\n|x|y|"
      = some [["a", "b"], ["1", "2"]] := by
  have h := claim_C6_first_table
    "Intro\n| a | b |\n|---|---|\n| 1 | 2 |\n\nMore prose.\n|x|y|"
    ["Intro"] ["| a | b |", "|---|---|", "| 1 | 2 |"] ["More prose.", "|x|y|"]
    (by decide) (by decide) (by decide) ⟨"| a | b |", by decide, by decide⟩
  rw [h]
  decide
